import Mathlib

/-!
Verification development for the stgit squash command.

This file gives a shallow embedding of the `stg squash` implementation
(`src/cmd/squash.rs`) and of the `apply_treediff_to_index` plumbing helper
(`src/stupid.rs`), together with models of the stack-transaction operations
that `squash` calls.  The transaction operations (`pop_patches`,
`push_patches`, `delete_patches`, `new_unapplied`) and `Stack::collides`
live in the `stack` module, which is not among the sampled sources; those
definitions are modelled from the specification and are marked as such.
All other definitions are translated from the source files.
-/

namespace StGit

instance {ε α : Type} [DecidableEq ε] [DecidableEq α] : DecidableEq (Except ε α) := fun x y =>
  match x, y with
  | .ok a, .ok b =>
    if h : a = b then isTrue (by rw [h]) else isFalse fun he => h (Except.ok.inj he)
  | .error a, .error b =>
    if h : a = b then isTrue (by rw [h]) else isFalse fun he => h (Except.error.inj he)
  | .ok _, .error _ => isFalse fun he => Except.noConfusion he
  | .error _, .ok _ => isFalse fun he => Except.noConfusion he

/-- Author signature as stored on a commit, mirroring `gix::actor::Signature`
with its `name`, `email` and `time` fields.  The derived equality compares
all three fields, exactly as the derived `PartialEq`/`Hash` implementations
on `gix::actor::Signature` do; `try_squash` uses that derived equality as
the key equality of its `HashMap<gix::actor::Signature, usize>`. -/
structure Signature where
  name : String
  email : String
  time : Int
  deriving DecidableEq, Repr

/-- First-occurrence deduplication of a signature list under the full derived
signature equality.  This models the key set of the `author_counts` hash map
built in `try_squash`: one key per distinct name/email/timestamp triple.
The hash map's iteration order is not deterministic in the source; it is
modelled here as first-insertion order, which only matters below for sort
ties that the comparator of `try_squash` cannot distinguish. -/
def firstDedup : List Signature → List Signature
  | [] => []
  | s :: rest => s :: (firstDedup rest).filter (fun t => t ≠ s)

/-- Occurrence counting of `try_squash` (`author_counts`): every distinct
signature, by full equality with the timestamp included, is mapped to the
number of selected patches carrying exactly that signature. -/
def sigCounts (l : List Signature) : List (Signature × Nat) :=
  (firstDedup l).map (fun s => (s, l.count s))

/-- Final author selection of `try_squash`: when `author_counts` has exactly
one entry that signature is used unchanged, otherwise the acting user
becomes the author. -/
def finalAuthor (l : List Signature) (user : Signature) : Signature :=
  match firstDedup l with
  | [s] => s
  | _ => user

/-- Boolean strict comparison realised by the `co_authors.sort_by` closure in
`try_squash`: entry `a` sorts strictly before entry `b` when `a` has the
larger count, or on equal counts when the author name of `a` is
lexicographically smaller.  Names are compared as character lists, matching
the order `str::cmp` gives on UTF-8 text. -/
def coLt (a b : Nat × Signature) : Bool :=
  b.1 < a.1 || (b.1 = a.1 && a.2.name.data < b.2.name.data)

/-- Non-strict counterpart of `coLt` as a relation: `coR a b` holds when the
stable sort may leave `a` before `b`.  `List.insertionSort` with this
relation reproduces the stable `sort_by` of the Rust standard library. -/
def coR (a b : Nat × Signature) : Prop := coLt b a = false

instance : DecidableRel coR := fun a b => inferInstanceAs (Decidable (coLt b a = false))

/-- Sorted co-author entries built by `try_squash` in the multiple-author
case: the `author_counts` entries whose signature differs (by full equality)
from the final author, swapped into `(count, author)` pairs and stably
sorted by descending count with ties broken by ascending name. -/
def coSorted (l : List Signature) (user : Signature) : List (Nat × Signature) :=
  List.insertionSort coR
    (((sigCounts l).filter (fun e => e.1 ≠ user)).map (fun e => (e.2, e.1)))

/-- Trailer line built by `try_squash` for one co-author. -/
def coTrailerLine (s : Signature) : String :=
  "Co-authored-by: " ++ s.name ++ " <" ++ s.email ++ ">"

/-- Trailer lines produced by `try_squash`: none when `author_counts` has a
single entry, otherwise one line per sorted co-author entry. -/
def coAuthorTrailers (l : List Signature) (user : Signature) : List String :=
  if 1 < (sigCounts l).length then (coSorted l user).map (fun e => coTrailerLine e.2)
  else []

/-- Equality on signatures as the specification words it: by name and email
only, with the timestamp excluded.  Kept separate from the source-derived
definitions above so the two can be compared. -/
def sameNE (a b : Signature) : Bool := a.name = b.name && a.email = b.email

/-- First-occurrence deduplication under the specification's (name, email)
equality. -/
def neDedup : List Signature → List Signature
  | [] => []
  | s :: rest => s :: (neDedup rest).filter (fun t => !(sameNE t s))

/-- Occurrence counting as the specification words it: one entry per
distinct (name, email) pair. -/
def specSigCounts (l : List Signature) : List (Signature × Nat) :=
  (neDedup l).map (fun s => (s, l.countP (fun t => sameNE t s)))

/-- Final author as the specification words it: the unique (name, email)
signature when only one exists, otherwise the acting user. -/
def specFinalAuthor (l : List Signature) (user : Signature) : Signature :=
  match specSigCounts l with
  | [(s, _)] => s
  | _ => user

/-- Sorted co-author entries as the specification words them: the distinct
(name, email) signatures other than the final author, ordered by descending
occurrence count with ties broken by ascending name. -/
def specCoSorted (l : List Signature) (user : Signature) : List (Nat × Signature) :=
  List.insertionSort coR
    (((specSigCounts l).filter (fun e => !(sameNE e.1 user))).map (fun e => (e.2, e.1)))

/-- Trailer lines as the specification words them. -/
def specTrailers (l : List Signature) (user : Signature) : List String :=
  if 1 < (specSigCounts l).length then (specCoSorted l user).map (fun e => coTrailerLine e.2)
  else []

/-- Tree object id. -/
abbrev Tree := Nat

/-- Tree data of one selected patch as used by the squash fast path: the
patch's own tree and the tree of its stored parent commit. -/
structure PatchTrees where
  parentTree : Tree
  tree : Tree
  deriving DecidableEq, Repr

/-- Loop body of the fast path in `try_squash`: walk the subsequent selected
patches in order, applying each patch's tree-diff to the scratch index, but
skipping a patch whose parent tree equals its own tree; stop with `none` as
soon as one diff fails to apply.  The temporary-index service is abstract:
`applyTd old new idx` returns the updated index, or `none` on a conflict. -/
def composeGo {Idx : Type} (applyTd : Tree → Tree → Idx → Option Idx) :
    List PatchTrees → Idx → Option Idx
  | [], idx => some idx
  | p :: ps, idx =>
    if p.parentTree = p.tree then composeGo applyTd ps idx
    else
      match applyTd p.parentTree p.tree idx with
      | some idx2 => composeGo applyTd ps idx2
      | none => none

/-- Fast path of `try_squash` (the `with_temp_index` closure): read the
first selected patch's tree into a scratch index, replay every subsequent
patch's tree-diff onto it, and write the resulting index out as a tree; the
result is `none` as soon as one diff fails to apply. -/
def fastTreeCompose {Idx : Type} (applyTd : Tree → Tree → Idx → Option Idx)
    (readTree : Tree → Idx) (writeTree : Idx → Tree)
    (first : Tree) (rest : List PatchTrees) : Option Tree :=
  (composeGo applyTd rest (readTree first)).map writeTree

/-- Fast-path loop as the specification words it: the tree-diff of every
subsequent patch is applied, with no equal-tree short cut. -/
def specComposeGo {Idx : Type} (applyTd : Tree → Tree → Idx → Option Idx) :
    List PatchTrees → Idx → Option Idx
  | [], idx => some idx
  | p :: ps, idx =>
    match applyTd p.parentTree p.tree idx with
    | some idx2 => specComposeGo applyTd ps idx2
    | none => none

/-- Fast path as the specification words it. -/
def specFastTreeCompose {Idx : Type} (applyTd : Tree → Tree → Idx → Option Idx)
    (readTree : Tree → Idx) (writeTree : Idx → Tree)
    (first : Tree) (rest : List PatchTrees) : Option Tree :=
  (specComposeGo applyTd rest (readTree first)).map writeTree

/-- Error of the plumbing bridge in `src/stupid.rs` that is distinguishable
at the exit-status level: a git child command failed outright. -/
inductive StupidError where
  | cmdError (cmd : String)
  deriving DecidableEq, Repr

/-- Embedding of `apply_treediff_to_index` from `src/stupid.rs` at the level
of the two child-process exit statuses: `diffTreeOk` is the success of
`git diff-tree`, `applyOk` the success of `git apply --cached`.  The source
checks the `diff-tree` status first and errors on its failure; otherwise a
successful apply yields `Ok(true)` and a failed apply yields `Ok(false)`. -/
def applyTreediffToIndex (diffTreeOk applyOk : Bool) : Except StupidError Bool :=
  if !diffTreeOk then Except.error (StupidError.cmdError "diff-tree")
  else Except.ok applyOk

/-- Patch name. -/
abbrev PatchName := String

/-- Commit object id. -/
abbrev CommitId := Nat

/-- Modelled from the spec: the stack's three ordered patch-name groups (the
name-to-commit mapping is not needed by the claims settled here).  The
applied group is ordered bottom to top; the `stack` module holding the Rust
`Stack` type is not among the sampled sources. -/
structure ModelStack where
  applied : List PatchName
  unapplied : List PatchName
  hidden : List PatchName
  deriving DecidableEq, Repr

/-- All patch names of a stack, in group order. -/
def ModelStack.allNames (st : ModelStack) : List PatchName :=
  st.applied ++ st.unapplied ++ st.hidden

/-- Errors raised by the squash command and by the transaction operations it
uses.  `assertionFailed` stands for the `assert!(popped_extra.is_empty())`
panic in `squash`. -/
inductive SqError where
  | nameCollision (pn : PatchName)
  | invalidSelection
  | pushConflict
  | causedConflicts
  | assertionFailed
  deriving DecidableEq, Repr

/-- Modelled from the spec: `StackTransaction::pop_patches` (the `stack`
module is not among the sampled sources).  Every applied patch matching the
predicate is popped together with every patch above it, so the applied
suffix starting at the lowest matching patch moves to the front of the
unapplied group in its original order.  The spec says the removed names are
returned "so they can later be selectively re-pushed"; since `squash`
deletes the selected names and then re-pushes the returned list verbatim,
the returned names are the displaced non-matching ones, in their original
bottom-to-top order, matching the "other patches displaced" wording used
for `delete_patches`. -/
def popPatches (p : PatchName → Bool) (st : ModelStack) : ModelStack × List PatchName :=
  let kept := st.applied.takeWhile (fun n => !(p n))
  let popped := st.applied.dropWhile (fun n => !(p n))
  (⟨kept, popped ++ st.unapplied, st.hidden⟩, popped.filter (fun n => !(p n)))

/-- Modelled from the spec: `StackTransaction::delete_patches`.  Matching
patches are removed from every group; deleting an applied patch implicitly
pops everything above it, and the names of the other patches displaced that
way are returned, in their original order, so the caller can re-push
them. -/
def delPatches (p : PatchName → Bool) (st : ModelStack) : ModelStack × List PatchName :=
  let kept := st.applied.takeWhile (fun n => !(p n))
  let popped := st.applied.dropWhile (fun n => !(p n))
  let displaced := popped.filter (fun n => !(p n))
  (⟨kept, displaced ++ st.unapplied.filter (fun n => !(p n)), st.hidden.filter (fun n => !(p n))⟩,
    displaced)

/-- Modelled from the spec: `StackTransaction::push_patches`.  Patches are
pushed in order onto the top of the applied group; whether a push conflicts
is decided by the external tree-merge service, abstracted here as the
`conflicts` oracle.  A conflicting push is still recorded as applied, the
batch stops there, and a push-conflict error propagates to the caller. -/
def pushPatches (conflicts : PatchName → Bool) :
    List PatchName → ModelStack → Except SqError ModelStack
  | [], st => Except.ok st
  | n :: rest, st =>
    let st2 : ModelStack := ⟨st.applied ++ [n], st.unapplied.erase n, st.hidden.erase n⟩
    if conflicts n then Except.error SqError.pushConflict
    else pushPatches conflicts rest st2

/-- Modelled from the spec: `StackTransaction::new_unapplied` with the
insertion index `0` used by `squash`: binds a brand-new patch name at the
front of the unapplied group, failing with a name collision when the name
already exists in the working copy. -/
def newUnapplied (n : PatchName) (_cid : CommitId) (st : ModelStack) :
    Except SqError ModelStack :=
  if st.allNames.contains n then Except.error (SqError.nameCollision n)
  else Except.ok ⟨st.applied, n :: st.unapplied, st.hidden⟩

/-- Selection predicate `|pn| patchnames.contains(pn)` that `squash` and
`run` pass to the transaction operations. -/
def inSel (patchnames : List PatchName) (pn : PatchName) : Bool := patchnames.contains pn

lemma inSel_iff {patchnames : List PatchName} {pn : PatchName} :
    inSel patchnames pn = true ↔ pn ∈ patchnames := List.elem_iff

/-- Control-flow core of `squash` (`src/cmd/squash.rs`, lines 182-203): the
fast attempt via `try_squash`, and on its failure the pop, push, retry,
delete sequence, with the `assert!(popped_extra.is_empty())` guard made
explicit.  The outcome of `try_squash` on a given transaction state is
abstracted as the `tryRes` oracle, since it depends on the external editor
and tree-merge services; `try_squash` itself does not change the stack's
patch groups. -/
def squashCore (tryRes : ModelStack → Option (PatchName × CommitId))
    (conflicts : PatchName → Bool) (patchnames : List PatchName) (st : ModelStack) :
    Except SqError (PatchName × CommitId × List PatchName × ModelStack) :=
  match tryRes st with
  | some (newName, cid) =>
    let r := delPatches (inSel patchnames) st
    Except.ok (newName, cid, r.2, r.1)
  | none =>
    let rp := popPatches (inSel patchnames) st
    match pushPatches conflicts patchnames rp.1 with
    | Except.error e => Except.error e
    | Except.ok stq =>
      match tryRes stq with
      | some (newName, cid) =>
        let rd := delPatches (inSel patchnames) stq
        if rd.2 = [] then Except.ok (newName, cid, rp.2, rd.1)
        else Except.error SqError.assertionFailed
      | none => Except.error SqError.causedConflicts

/-- Whole of `squash` (`src/cmd/squash.rs`, lines 175-216): the core above
followed by finalization, which inserts the new patch as unapplied at index
0, puts it at the front of the re-push list when `should_push_squashed` is
set, and pushes the list. -/
def squashModel (tryRes : ModelStack → Option (PatchName × CommitId))
    (conflicts : PatchName → Bool) (patchnames : List PatchName)
    (shouldPushSquashed : Bool) (st : ModelStack) : Except SqError (PatchName × ModelStack) :=
  match squashCore tryRes conflicts patchnames st with
  | Except.error e => Except.error e
  | Except.ok (newName, cid, toPush, st1) =>
    match newUnapplied newName cid st1 with
    | Except.error e => Except.error e
    | Except.ok st2 =>
      match pushPatches conflicts (if shouldPushSquashed then newName :: toPush else toPush) st2 with
      | Except.error e => Except.error e
      | Except.ok st3 => Except.ok (newName, st3)

/-- Modelled from the spec: `Stack::collides` (the `stack` module is not
among the sampled sources).  The specification's uniqueness invariant for
patch names makes a collision exact-name membership among all patches of
the stack. -/
def collides (st : ModelStack) (n : PatchName) : Option PatchName :=
  st.allNames.find? (fun m => m = n)

/-- New-name validation of `run` (`src/cmd/squash.rs`, lines 94-100): a
supplied name that is one of the selected names is accepted without any
collision check; otherwise a collision with an existing patch name is an
error naming the colliding patch. -/
def checkNewName (st : ModelStack) (patchnames : List PatchName) (nm : Option PatchName) :
    Except SqError Unit :=
  match nm with
  | none => Except.ok ()
  | some n =>
    if patchnames.contains n then Except.ok ()
    else
      match collides st n with
      | some c => Except.error (SqError.nameCollision c)
      | none => Except.ok ()

/-- Outcome of the squash entry point. -/
inductive RunOutcome where
  | squashed (pn : PatchName) (st : ModelStack)
  | templateSaved
  deriving DecidableEq, Repr

/-- Entry point `run` (`src/cmd/squash.rs`, lines 74-152) at the level of
the already-resolved selection: new-name validation, then the two-patch
minimum, then the save-template branch, and otherwise the transaction
running `squash` with `should_push_squashed` computed from the applied
group of the initial stack. -/
def runModel (tryRes : ModelStack → Option (PatchName × CommitId))
    (conflicts : PatchName → Bool) (st : ModelStack) (patchnames : List PatchName)
    (nm : Option PatchName) (saveTemplate : Bool) : Except SqError RunOutcome :=
  match checkNewName st patchnames nm with
  | Except.error e => Except.error e
  | Except.ok _ =>
    if patchnames.length < 2 then Except.error SqError.invalidSelection
    else if saveTemplate then Except.ok RunOutcome.templateSaved
    else
      match squashModel tryRes conflicts patchnames
          (st.applied.any (inSel patchnames)) st with
      | Except.error e => Except.error e
      | Except.ok (pn, st2) => Except.ok (RunOutcome.squashed pn st2)

/-- Example signature: Alice with timestamp 1. -/
def sigAliceOne : Signature := ⟨"Alice", "alice@example.com", 1⟩

/-- Example signature: Alice with timestamp 2 (same name and email as
`sigAliceOne`, different timestamp). -/
def sigAliceTwo : Signature := ⟨"Alice", "alice@example.com", 2⟩

/-- Example signature: Ann. -/
def sigAnn : Signature := ⟨"Ann", "ann@example.com", 3⟩

/-- Example signature: Bob with timestamp 1. -/
def sigBobOne : Signature := ⟨"Bob", "bob@example.com", 1⟩

/-- Example signature: Bob with timestamp 2. -/
def sigBobTwo : Signature := ⟨"Bob", "bob@example.com", 2⟩

/-- Example signature: the acting user Zed. -/
def sigZed : Signature := ⟨"Zed", "zed@example.com", 0⟩

/-- Example stack for the squash control-flow claims. -/
def stW : ModelStack := ⟨["p1", "q"], ["p2"], []⟩

/-- Example stack for the entry-point claims. -/
def stR : ModelStack := ⟨["a", "b"], [], []⟩

/-- Oracle that always reports a failed fast path. -/
def tryNone : ModelStack → Option (PatchName × CommitId) := fun _ => none

/-- Oracle that always reports a successful fast path producing patch
`new` with commit id 7. -/
def tryAlways : ModelStack → Option (PatchName × CommitId) := fun _ => some ("new", 7)

/-- Conflict oracle that never conflicts. -/
def noConflicts : PatchName → Bool := fun _ => false

lemma mem_firstDedup {l : List Signature} {a : Signature} : a ∈ firstDedup l ↔ a ∈ l := by
  induction l with
  | nil => simp [firstDedup]
  | cons s rest ih =>
    simp only [firstDedup, List.mem_cons, List.mem_filter, ih, decide_eq_true_eq]
    constructor
    · rintro (rfl | ⟨h, _⟩)
      · exact .inl rfl
      · exact .inr h
    · rintro (rfl | h)
      · exact .inl rfl
      · by_cases has : a = s
        · exact .inl has
        · exact .inr ⟨h, has⟩

lemma nodup_firstDedup (l : List Signature) : (firstDedup l).Nodup := by
  induction l with
  | nil => simp [firstDedup]
  | cons s rest ih =>
    rw [firstDedup, List.nodup_cons]
    refine ⟨fun hmem => ?_, ih.filter _⟩
    have := (List.mem_filter.mp hmem).2
    simp at this

lemma find_map_pair (f : Signature → Nat) (s : Signature) :
    ∀ ks : List Signature, s ∈ ks →
      (ks.map (fun t => (t, f t))).find? (fun e => e.1 = s) = some (s, f s) := by
  intro ks
  induction ks with
  | nil => intro h; cases h
  | cons k ks ih =>
    intro hmem
    by_cases hk : k = s
    · subst hk
      simp [List.find?_cons]
    · have hs : s ∈ ks := by
        rcases List.mem_cons.mp hmem with h | h
        · exact absurd h.symm hk
        · exact h
      simpa [List.find?_cons, hk] using ih hs

lemma firstDedup_all_eq {l : List Signature} {s : Signature} (hne : l ≠ [])
    (hall : ∀ a ∈ l, a = s) : firstDedup l = [s] := by
  cases l with
  | nil => cases hne rfl
  | cons a rest =>
    have ha : a = s := hall a (List.mem_cons_self a rest)
    subst ha
    rw [firstDedup]
    have hnil : (firstDedup rest).filter (fun t => t ≠ a) = [] := by
      refine List.filter_eq_nil_iff.mpr fun t ht => ?_
      have hta : t = a := hall t (List.mem_cons_of_mem a (mem_firstDedup.mp ht))
      simp [hta]
    rw [hnil]

lemma coR_iff (a b : Nat × Signature) :
    coR a b ↔ b.1 ≤ a.1 ∧ (a.1 = b.1 → a.2.name.data ≤ b.2.name.data) := by
  rw [coR]
  simp only [coLt, Bool.or_eq_false_iff, Bool.and_eq_false_iff, decide_eq_false_iff_not,
    not_lt]
  constructor
  · rintro ⟨h1, h2⟩
    refine ⟨h1, fun he => ?_⟩
    rcases h2 with h2 | h2
    · exact absurd he h2
    · exact h2
  · rintro ⟨h1, h2⟩
    refine ⟨h1, ?_⟩
    by_cases he : a.1 = b.1
    · exact .inr (h2 he)
    · exact .inl he

instance : IsTotal (Nat × Signature) coR :=
  ⟨fun a b => by
    rw [coR_iff, coR_iff]
    rcases Nat.lt_trichotomy a.1 b.1 with h | h | h
    · exact .inr ⟨le_of_lt h, fun he => absurd he (by omega)⟩
    · rcases le_total a.2.name.data b.2.name.data with hn | hn
      · exact .inl ⟨le_of_eq h.symm, fun _ => hn⟩
      · exact .inr ⟨le_of_eq h, fun _ => hn⟩
    · exact .inl ⟨le_of_lt h, fun he => absurd he (by omega)⟩⟩

instance : IsTrans (Nat × Signature) coR :=
  ⟨fun a b c hab hbc => by
    rw [coR_iff] at hab hbc ⊢
    obtain ⟨h1, h2⟩ := hab
    obtain ⟨h3, h4⟩ := hbc
    refine ⟨le_trans h3 h1, fun he => ?_⟩
    have hb1 : a.1 = b.1 := by omega
    have hb2 : b.1 = c.1 := by omega
    exact le_trans (h2 hb1) (h4 hb2)⟩

/-- C1 counterexample: two signatures sharing name and email but differing
in timestamp are counted as two distinct authors by `try_squash`, because
the `HashMap` key equality of `gix::actor::Signature` includes the
timestamp; the claim requires them to contribute to a single occurrence
count. -/
theorem squash_author_timestamp_counterexample :
    sameNE sigAliceOne sigAliceTwo = true
    ∧ (sigCounts [sigAliceOne, sigAliceTwo]).length = 2
    ∧ ¬ (sigCounts [sigAliceOne, sigAliceTwo]).length = 1 := by decide

/-- C1 (amended): during squash author reconciliation two patch author
signatures are counted as the same author if and only if they are equal as
full (name, email, timestamp) signatures; the occurrence count recorded for
a signature is the number of selected patches whose author equals it in all
three fields, and there is one count entry per distinct full signature. -/
theorem squash_author_count_full_equality (l : List Signature) (s : Signature) (h : s ∈ l) :
    (sigCounts l).find? (fun e => e.1 = s) = some (s, l.count s)
    ∧ ((sigCounts l).map (fun e => e.1)).Nodup := by
  constructor
  · exact find_map_pair _ _ _ (mem_firstDedup.mpr h)
  · have h3 : (sigCounts l).map (fun e => e.1) = firstDedup l := by
      simp [sigCounts, List.map_map, Function.comp_def]
    rw [h3]
    exact nodup_firstDedup l

/-- C1 witness: in a selection with two patches by Alice at timestamp 1 and
one by Alice at timestamp 2, the count entry found for Alice at timestamp 1
is exactly 2. -/
theorem squash_author_count_full_equality_witness :
    (sigCounts [sigAliceOne, sigAliceTwo, sigAliceOne]).find?
        (fun e => e.1 = sigAliceOne) = some (sigAliceOne, 2) :=
  (squash_author_count_full_equality [sigAliceOne, sigAliceTwo, sigAliceOne] sigAliceOne
    (by decide)).1

/-- C3 counterexample: two patches by the same (name, email) person at
different timestamps form exactly one distinct signature in the claim's
sense, yet `try_squash` makes the acting user the author and emits
Co-authored-by trailers. -/
theorem squash_final_author_counterexample :
    (specSigCounts [sigAliceOne, sigAliceTwo]).length = 1
    ∧ finalAuthor [sigAliceOne, sigAliceTwo] sigZed ≠ sigAliceOne
    ∧ finalAuthor [sigAliceOne, sigAliceTwo] sigZed ≠ sigAliceTwo
    ∧ coAuthorTrailers [sigAliceOne, sigAliceTwo] sigZed ≠ [] := by decide

/-- C3 (amended): when all selected patches carry the same full
(name, email, timestamp) signature, that signature becomes the new patch's
author unchanged and no Co-authored-by trailers are produced; when two
selected patches carry different full signatures, the acting user's
identity becomes the author. -/
theorem squash_final_author_full_equality (l : List Signature) (s user : Signature) :
    ((l ≠ [] ∧ ∀ a ∈ l, a = s) →
      finalAuthor l user = s ∧ coAuthorTrailers l user = [])
    ∧ ((∃ a ∈ l, ∃ b ∈ l, a ≠ b) → finalAuthor l user = user) := by
  constructor
  · rintro ⟨hne, hall⟩
    have hd := firstDedup_all_eq hne hall
    constructor
    · rw [finalAuthor, hd]
    · have hlen : (sigCounts l).length = 1 := by rw [sigCounts, hd]; rfl
      simp [coAuthorTrailers, hlen]
  · rintro ⟨a, ha, b, hb, hab⟩
    have ha2 : a ∈ firstDedup l := mem_firstDedup.mpr ha
    have hb2 : b ∈ firstDedup l := mem_firstDedup.mpr hb
    rw [finalAuthor]
    cases hfd : firstDedup l with
    | nil => rfl
    | cons x xs =>
      cases xs with
      | nil =>
        rw [hfd] at ha2 hb2
        simp only [List.mem_singleton] at ha2 hb2
        exact absurd (ha2.trans hb2.symm) hab
      | cons y ys => rfl

/-- C3 witness: a single-element selection by Alice keeps Alice as the
author and yields no trailers. -/
theorem squash_final_author_full_equality_witness :
    finalAuthor [sigAliceOne] sigZed = sigAliceOne
    ∧ coAuthorTrailers [sigAliceOne] sigZed = [] :=
  (squash_final_author_full_equality [sigAliceOne] sigAliceOne sigZed).1
    ⟨by decide, by decide⟩

/-- C2 counterexample: selecting two patches by Bob (timestamps 1 and 2) and
one by Ann, with acting user Zed, the claim asks for the two trailers Bob
then Ann (Bob has the larger occurrence count); the code instead counts
three distinct signatures of occurrence one each and emits three trailers
ordered Ann, Bob, Bob. -/
theorem squash_coauthor_trailers_counterexample :
    (specSigCounts [sigBobOne, sigBobTwo, sigAnn]).length = 2
    ∧ specTrailers [sigBobOne, sigBobTwo, sigAnn] sigZed =
        [coTrailerLine sigBobOne, coTrailerLine sigAnn]
    ∧ coAuthorTrailers [sigBobOne, sigBobTwo, sigAnn] sigZed =
        [coTrailerLine sigAnn, coTrailerLine sigBobOne, coTrailerLine sigBobOne]
    ∧ coAuthorTrailers [sigBobOne, sigBobTwo, sigAnn] sigZed ≠
        specTrailers [sigBobOne, sigBobTwo, sigAnn] sigZed := by decide

/-- C2 (amended): when the count map has more than one entry, every distinct
full (name, email, timestamp) signature other than the final author is
emitted as a `Co-authored-by: Name <email>` trailer line (so the same
person can appear once per distinct timestamp), and the emitted entries are
a permutation of those count-map entries sorted by descending occurrence
count with ties broken by ascending lexicographic author name; the claim's
concrete instance holds: squashing two patches by the distinct authors Ann
and Bob with acting user Zed yields author Zed and the two trailers Ann
then Bob. -/
theorem squash_coauthor_trailers_full_equality (l : List Signature) (user : Signature)
    (h2 : 1 < (sigCounts l).length) :
    coAuthorTrailers l user = (coSorted l user).map (fun e => coTrailerLine e.2)
    ∧ (coSorted l user).Perm
        (((sigCounts l).filter (fun e => e.1 ≠ user)).map (fun e => (e.2, e.1)))
    ∧ (coSorted l user).Sorted coR
    ∧ finalAuthor [sigAnn, sigBobOne] sigZed = sigZed
    ∧ coAuthorTrailers [sigAnn, sigBobOne] sigZed =
        [coTrailerLine sigAnn, coTrailerLine sigBobOne] := by
  refine ⟨?_, ?_, ?_, by decide, by decide⟩
  · simp [coAuthorTrailers, h2]
  · exact List.perm_insertionSort coR _
  · exact List.sorted_insertionSort coR _

/-- C2 witness: the trailer list for the Bob, Bob, Ann selection is the
formatted sorted co-author list. -/
theorem squash_coauthor_trailers_full_equality_witness :
    coAuthorTrailers [sigBobOne, sigBobTwo, sigAnn] sigZed =
      (coSorted [sigBobOne, sigBobTwo, sigAnn] sigZed).map (fun e => coTrailerLine e.2) :=
  (squash_coauthor_trailers_full_equality [sigBobOne, sigBobTwo, sigAnn] sigZed (by decide)).1

/-- C4: the squash fast path starts from the first selected patch's tree
read into a scratch index and applies, for every subsequent selected patch
in order, the tree-diff between that patch's stored parent tree and its own
tree; if every diff applies cleanly the scratch index is written to the new
tree id, and if any diff fails the result is `none`, carrying no scratch
state.  The source skips a patch whose parent tree equals its own tree;
under the black-box contract that applying an empty diff succeeds and
leaves the index unchanged (`hid`), the loop coincides with the
specification's description `specComposeGo`, which applies every diff. -/
theorem squash_fast_path_c4 {Idx : Type} (applyTd : Tree → Tree → Idx → Option Idx)
    (readTree : Tree → Idx) (writeTree : Idx → Tree) (first : Tree) (rest : List PatchTrees)
    (hid : ∀ t idx, applyTd t t idx = some idx) :
    (∀ idx, composeGo applyTd rest idx = specComposeGo applyTd rest idx)
    ∧ fastTreeCompose applyTd readTree writeTree first rest =
        specFastTreeCompose applyTd readTree writeTree first rest := by
  have hgo : ∀ (ps : List PatchTrees) (idx : Idx),
      composeGo applyTd ps idx = specComposeGo applyTd ps idx := by
    intro ps
    induction ps with
    | nil => intro idx; rfl
    | cons p ps ih =>
      intro idx
      by_cases hp : p.parentTree = p.tree
      · have happ : applyTd p.parentTree p.tree idx = some idx := by
          rw [hp]; exact hid p.tree idx
        simp only [composeGo, specComposeGo, if_pos hp, happ]
        exact ih idx
      · simp only [composeGo, specComposeGo, if_neg hp]
        cases h : applyTd p.parentTree p.tree idx with
        | some idx2 => exact ih idx2
        | none => rfl
  exact ⟨hgo rest, by rw [fastTreeCompose, specFastTreeCompose, hgo rest (readTree first)]⟩

/-- Concrete tree-diff application used to witness the fast-path theorem:
an empty diff keeps the index, any other diff stamps the new tree. -/
def applyW : Tree → Tree → Nat → Option Nat :=
  fun t1 t2 i => if t1 = t2 then some i else some (i + t2)

/-- C4 witness: the fast-path composition and the specification's
composition agree on a concrete two-patch suffix, one patch with a proper
diff and one empty-diff patch. -/
theorem squash_fast_path_c4_witness :
    fastTreeCompose applyW (fun t => t) (fun i => i) 5 [⟨5, 9⟩, ⟨3, 3⟩] =
      specFastTreeCompose applyW (fun t => t) (fun i => i) 5 [⟨5, 9⟩, ⟨3, 3⟩] :=
  (squash_fast_path_c4 applyW (fun t => t) (fun i => i) 5 [⟨5, 9⟩, ⟨3, 3⟩]
    (fun t i => by simp [applyW])).2

lemma dropWhile_append_all {α : Type} (p : α → Bool) (l1 l2 : List α)
    (h : ∀ a ∈ l1, p a = true) : (l1 ++ l2).dropWhile p = l2.dropWhile p := by
  induction l1 with
  | nil => rfl
  | cons a l ih =>
    have ha : p a = true := h a (by simp)
    simp [List.dropWhile_cons, ha]
    exact ih fun b hb => h b (by simp [hb])

lemma pushPatches_ok_applied (conflicts : PatchName → Bool) :
    ∀ (names : List PatchName) (st st2 : ModelStack),
      pushPatches conflicts names st = Except.ok st2 → st2.applied = st.applied ++ names := by
  intro names
  induction names with
  | nil =>
    intro st st2 h
    simp only [pushPatches] at h
    injection h with h2
    rw [← h2]
    simp
  | cons n rest ih =>
    intro st st2 h
    simp only [pushPatches] at h
    by_cases hc : conflicts n = true
    · rw [if_pos hc] at h
      exact Except.noConfusion h
    · rw [if_neg hc] at h
      have h3 := ih _ _ h
      rw [h3]
      simp

lemma pushPatches_error (conflicts : PatchName → Bool) :
    ∀ (names : List PatchName) (st : ModelStack) (e : SqError),
      pushPatches conflicts names st = Except.error e → e = SqError.pushConflict := by
  intro names
  induction names with
  | nil =>
    intro st e h
    simp only [pushPatches] at h
    exact Except.noConfusion h
  | cons n rest ih =>
    intro st e h
    simp only [pushPatches] at h
    by_cases hc : conflicts n = true
    · rw [if_pos hc] at h
      exact (Except.error.inj h).symm
    · rw [if_neg hc] at h
      exact ih _ _ h

lemma newUnapplied_error (n : PatchName) (cid : CommitId) (st : ModelStack) (e : SqError)
    (h : newUnapplied n cid st = Except.error e) : e = SqError.nameCollision n := by
  rw [newUnapplied] at h
  by_cases hc : st.allNames.contains n = true
  · rw [if_pos hc] at h
    exact (Except.error.inj h).symm
  · rw [if_neg hc] at h
    exact Except.noConfusion h

lemma delPatches_removes (p : PatchName → Bool) (st : ModelStack) (m : PatchName)
    (hm : p m = true) : ¬ m ∈ ((delPatches p st).1).allNames := by
  intro hmem
  have hfalse : (!(p m)) = true → False := by simp [hm]
  simp only [delPatches, ModelStack.allNames, List.mem_append, List.mem_filter] at hmem
  rcases hmem with (h | (h | h)) | h
  · have h2 := List.mem_takeWhile_imp h
    exact hfalse h2
  · exact hfalse h.2
  · exact hfalse h.2
  · exact hfalse h.2

lemma delete_after_push (sel : List PatchName) (conflicts : PatchName → Bool)
    (st stq : ModelStack)
    (hpush : pushPatches conflicts sel (popPatches (inSel sel) st).1 = Except.ok stq) :
    (delPatches (inSel sel) stq).2 = [] := by
  have happ := pushPatches_ok_applied conflicts sel _ _ hpush
  have hkept : ∀ a ∈ (popPatches (inSel sel) st).1.applied,
      (fun n => !(inSel sel n)) a = true := by
    intro a ha
    simp only [popPatches] at ha
    have h2 := List.mem_takeWhile_imp ha
    exact h2
  simp only [delPatches]
  refine List.filter_eq_nil_iff.mpr fun a ha => ?_
  rw [happ, dropWhile_append_all _ _ _ hkept] at ha
  have hsel : a ∈ sel := (List.dropWhile_sublist _).mem ha
  have hc : inSel sel a = true := inSel_iff.mpr hsel
  simp [hc]

lemma squashCore_no_assert (tryRes : ModelStack → Option (PatchName × CommitId))
    (conflicts : PatchName → Bool) (sel : List PatchName) (st : ModelStack) :
    squashCore tryRes conflicts sel st ≠ Except.error SqError.assertionFailed := by
  simp only [squashCore]
  cases htry : tryRes st with
  | some pr =>
    obtain ⟨nn, cid⟩ := pr
    simp
  | none =>
    simp only []
    cases hpush : pushPatches conflicts sel (popPatches (inSel sel) st).1 with
    | error e =>
      have he := pushPatches_error conflicts sel _ e hpush
      subst he
      simp [hpush]
    | ok stq =>
      cases htry2 : tryRes stq with
      | none => simp [hpush, htry2]
      | some pr2 =>
        obtain ⟨nn, cid⟩ := pr2
        have hd := delete_after_push sel conflicts st stq hpush
        simp [hpush, htry2, hd]

lemma squashModel_no_assert (tryRes : ModelStack → Option (PatchName × CommitId))
    (conflicts : PatchName → Bool) (sel : List PatchName) (b : Bool) (st : ModelStack) :
    squashModel tryRes conflicts sel b st ≠ Except.error SqError.assertionFailed := by
  simp only [squashModel]
  cases hc : squashCore tryRes conflicts sel st with
  | error e =>
    have hne : e ≠ SqError.assertionFailed := fun he =>
      squashCore_no_assert tryRes conflicts sel st (he ▸ hc)
    simp [hc, hne]
  | ok quad =>
    obtain ⟨nn, cid, toPush, st1⟩ := quad
    cases hnu : newUnapplied nn cid st1 with
    | error e =>
      have he := newUnapplied_error nn cid st1 e hnu
      subst he
      simp [hc, hnu]
    | ok st2 =>
      cases hp2 : pushPatches conflicts (if b then nn :: toPush else toPush) st2 with
      | error e =>
        have he := pushPatches_error conflicts _ _ e hp2
        subst he
        simp [hc, hnu, hp2]
      | ok st3 => simp [hc, hnu, hp2]

/-- C5: when the fast path of a squash fails, the fallback pops every
selected patch (and whatever is above them, with the displaced set
recorded), pushes the selected patches in the caller-specified order
through the conflict-aware push path, then retries the fast-path
composition: a push error propagates unchanged, a failed retry aborts the
squash with `CausedConflicts`, and a successful retry hands finalization
the displaced set recorded by the pop together with the post-delete
state. -/
theorem squash_fallback_c5 (tryRes : ModelStack → Option (PatchName × CommitId))
    (conflicts : PatchName → Bool) (patchnames : List PatchName) (b : Bool) (st : ModelStack)
    (h : tryRes st = none) :
    (∀ e, pushPatches conflicts patchnames (popPatches (inSel patchnames) st).1 =
        Except.error e →
      squashModel tryRes conflicts patchnames b st = Except.error e)
    ∧ (∀ stq, pushPatches conflicts patchnames (popPatches (inSel patchnames) st).1 =
        Except.ok stq →
        tryRes stq = none →
      squashModel tryRes conflicts patchnames b st = Except.error SqError.causedConflicts)
    ∧ (∀ stq n cid, pushPatches conflicts patchnames (popPatches (inSel patchnames) st).1 =
        Except.ok stq →
        tryRes stq = some (n, cid) →
      squashCore tryRes conflicts patchnames st =
        Except.ok (n, cid, (popPatches (inSel patchnames) st).2,
          (delPatches (inSel patchnames) stq).1)) := by
  refine ⟨?_, ?_, ?_⟩
  · intro e hpush
    simp only [squashModel, squashCore, h, hpush]
  · intro stq hpush htry2
    simp only [squashModel, squashCore, h, hpush, htry2]
  · intro stq n cid hpush htry2
    have hd := delete_after_push patchnames conflicts st stq hpush
    simp only [squashCore, h, hpush, htry2, hd]
    simp

/-- C5 witness: on a concrete stack whose fast path always fails and whose
retry also fails, the squash aborts with `CausedConflicts`. -/
theorem squash_fallback_c5_witness :
    squashModel tryNone noConflicts ["p1", "p2"] true stW =
      Except.error SqError.causedConflicts :=
  (squash_fallback_c5 tryNone noConflicts ["p1", "p2"] true stW (by decide)).2.1
    ⟨["p1", "p2"], ["q"], []⟩ (by decide) (by decide)

/-- C6: on squash finalization the transaction has deleted every selected
patch name, inserts the new squashed patch as unapplied at index 0, and
re-pushes the displaced patches in their recorded order; the new patch is
put at the front of that push list exactly when some selected patch was in
the applied group of the initial stack, which is how `run` computes
`should_push_squashed`. -/
theorem squash_finalization_c6 (tryRes : ModelStack → Option (PatchName × CommitId))
    (conflicts : PatchName → Bool) (patchnames : List PatchName) (st : ModelStack)
    (n : PatchName) (cid : CommitId) (htry : tryRes st = some (n, cid)) :
    (∀ m ∈ patchnames, ¬ m ∈ ((delPatches (inSel patchnames) st).1).allNames)
    ∧ squashModel tryRes conflicts patchnames (st.applied.any (inSel patchnames)) st =
      (match newUnapplied n cid (delPatches (inSel patchnames) st).1 with
       | Except.error e => Except.error e
       | Except.ok st2 =>
         match pushPatches conflicts
             ((if st.applied.any (inSel patchnames) then [n] else []) ++
               (delPatches (inSel patchnames) st).2) st2 with
         | Except.error e => Except.error e
         | Except.ok st3 => Except.ok (n, st3)) := by
  constructor
  · intro m hm
    exact delPatches_removes (inSel patchnames) st m (inSel_iff.mpr hm)
  · simp only [squashModel, squashCore, htry]
    have hif : (if st.applied.any (inSel patchnames) then
          n :: (delPatches (inSel patchnames) st).2
        else (delPatches (inSel patchnames) st).2) =
        (if st.applied.any (inSel patchnames) then [n] else []) ++
          (delPatches (inSel patchnames) st).2 := by
      by_cases hb : st.applied.any (inSel patchnames) = true
      · rw [if_pos hb, if_pos hb]
        rfl
      · rw [if_neg hb, if_neg hb]
        rfl
    rw [hif]

/-- C6 witness: after the fast-path delete on the concrete stack, the
selected patch `p1` is gone from every group. -/
theorem squash_finalization_c6_witness :
    ¬ "p1" ∈ ((delPatches (inSel ["p1", "q"]) stW).1).allNames :=
  (squash_finalization_c6 tryAlways noConflicts ["p1", "q"] stW "new" 7 (by decide)).1
    "p1" (by decide)

/-- C7 counterexample: with a single selected patch and a supplied new name
that collides outside the selection, the entry point fails with the
name-collision error, not the invalid-selection error, because the
collision check runs first. -/
theorem run_invalid_selection_counterexample :
    runModel tryNone noConflicts stR ["a"] (some "b") false =
      Except.error (SqError.nameCollision "b")
    ∧ (["a"] : List PatchName).length < 2
    ∧ runModel tryNone noConflicts stR ["a"] (some "b") false ≠
        Except.error SqError.invalidSelection := by decide

/-- C7 (amended): whenever fewer than two patch names are selected and the
supplied new name (if any) passes the collision check that runs first, the
squash entry point fails with the invalid-selection error; the failure is
independent of the transaction oracles, so no state is consulted or
mutated. -/
theorem run_invalid_selection_amended (tryRes : ModelStack → Option (PatchName × CommitId))
    (conflicts : PatchName → Bool) (st : ModelStack) (patchnames : List PatchName)
    (nm : Option PatchName) (saveTemplate : Bool)
    (hok : checkNewName st patchnames nm = Except.ok ())
    (hlen : patchnames.length < 2) :
    runModel tryRes conflicts st patchnames nm saveTemplate =
      Except.error SqError.invalidSelection := by
  simp only [runModel, hok]
  rw [if_pos hlen]

/-- C7 witness: one selected patch and no supplied name yield the
invalid-selection error. -/
theorem run_invalid_selection_amended_witness :
    runModel tryNone noConflicts stR ["a"] none false =
      Except.error SqError.invalidSelection :=
  run_invalid_selection_amended tryNone noConflicts stR ["a"] none false (by decide) (by decide)

lemma collides_of_mem {st : ModelStack} {n : PatchName} (h : n ∈ st.allNames) :
    collides st n = some n := by
  rw [collides]
  cases hf : st.allNames.find? (fun m => m = n) with
  | none =>
    have h2 := List.find?_eq_none.mp hf n h
    simp at h2
  | some a =>
    have ha : a = n := by
      have h2 := List.find?_some hf
      simpa using h2
    rw [ha]

lemma collides_some {st : ModelStack} {n c : PatchName} (h : collides st n = some c) :
    c = n ∧ n ∈ st.allNames := by
  rw [collides] at h
  have hc : c = n := by
    have h2 := List.find?_some h
    simpa using h2
  exact ⟨hc, hc ▸ List.mem_of_find?_eq_some h⟩

/-- C8: with a new name supplied, the entry point's validation fails with a
name-collision error if and only if the name is an existing patch name
outside the squash selection; a supplied name equal to one of the selected
patch names is accepted without any collision check, and a validation error
makes the whole entry point fail with that error before anything else
runs. -/
theorem squash_new_name_collision_c8 (st : ModelStack) (patchnames : List PatchName)
    (n : PatchName) :
    ((∃ c, checkNewName st patchnames (some n) = Except.error (SqError.nameCollision c)) ↔
      (n ∈ st.allNames ∧ ¬ n ∈ patchnames))
    ∧ (n ∈ patchnames → checkNewName st patchnames (some n) = Except.ok ())
    ∧ (∀ e tryRes conflicts saveTemplate,
        checkNewName st patchnames (some n) = Except.error e →
        runModel tryRes conflicts st patchnames (some n) saveTemplate = Except.error e) := by
  refine ⟨⟨?_, ?_⟩, ?_, ?_⟩
  · rintro ⟨c, hc⟩
    simp only [checkNewName] at hc
    by_cases hmem : patchnames.contains n = true
    · rw [if_pos hmem] at hc
      exact Except.noConfusion hc
    · rw [if_neg hmem] at hc
      cases hcol : collides st n with
      | none =>
        rw [hcol] at hc
        exact Except.noConfusion hc
      | some c2 =>
        obtain ⟨hc2, hmem2⟩ := collides_some hcol
        exact ⟨hmem2, fun hn => hmem (List.elem_iff.mpr hn)⟩
  · rintro ⟨hmem, hnot⟩
    refine ⟨n, ?_⟩
    have hcon : ¬ patchnames.contains n = true := fun h => hnot (List.elem_iff.mp h)
    simp only [checkNewName]
    rw [if_neg hcon, collides_of_mem hmem]
  · intro hmem
    simp only [checkNewName]
    rw [if_pos (List.elem_iff.mpr hmem)]
  · intro e tryRes conflicts saveTemplate hce
    simp only [runModel, hce]

/-- C8 witness: a supplied name equal to a selected patch name is
accepted. -/
theorem squash_new_name_collision_c8_witness :
    checkNewName stR ["a"] (some "a") = Except.ok () :=
  (squash_new_name_collision_c8 stR ["a"] "a").2.1 (by decide)

/-- C10: once the fallback pop has removed every selected patch (and all
patches above them) and the subsequent push has placed the selected patches
contiguously at the top of the applied group, deleting exactly the selected
set displaces no other patch: the to-re-push list returned by the delete is
empty, and consequently no run of the squash control flow can ever hit the
`assert!(popped_extra.is_empty())` failure. -/
theorem squash_delete_after_push_c10 :
    (∀ (st : ModelStack) (sel : List PatchName) (conflicts : PatchName → Bool)
        (stq : ModelStack),
      pushPatches conflicts sel (popPatches (inSel sel) st).1 = Except.ok stq →
      (delPatches (inSel sel) stq).2 = [])
    ∧ (∀ tryRes conflicts sel b st,
        squashModel tryRes conflicts sel b st ≠ Except.error SqError.assertionFailed) :=
  ⟨fun st sel conflicts stq h => delete_after_push sel conflicts st stq h,
   squashModel_no_assert⟩

/-- C10 witness: on the concrete stack, after popping and pushing the
selection, deleting it displaces nothing. -/
theorem squash_delete_after_push_c10_witness :
    (delPatches (inSel ["p1", "p2"]) ⟨["p1", "p2"], ["q"], []⟩).2 = [] :=
  squash_delete_after_push_c10.1 stW ["p1", "p2"] noConflicts
    ⟨["p1", "p2"], ["q"], []⟩ (by decide)

/-- C9: `apply_treediff_to_index` returns `Ok(false)` exactly when the
diff-tree command succeeded and the apply command failed (a conflict),
`Ok(true)` exactly when both succeeded, and an error exactly when the
tree-diff computation itself failed. -/
theorem apply_treediff_contract_c9 (diffTreeOk applyOk : Bool) :
    (applyTreediffToIndex diffTreeOk applyOk = Except.ok false ↔
      diffTreeOk = true ∧ applyOk = false)
    ∧ (applyTreediffToIndex diffTreeOk applyOk = Except.ok true ↔
      diffTreeOk = true ∧ applyOk = true)
    ∧ (applyTreediffToIndex diffTreeOk applyOk =
        Except.error (StupidError.cmdError "diff-tree") ↔ diffTreeOk = false) := by
  cases diffTreeOk <;> cases applyOk <;> simp [applyTreediffToIndex]

end StGit
